import Mathlib

/-!
Verification of the core of the parallel-malloc allocator: a shallow
embedding of the block-metadata codec, the per-arena heap manager
(coalescing, splitting, segregated free lists, heap extension), the arena
dispatcher, and the per-thread block cache, together with theorems that
settle the specification claims against the code.

Memory is modelled as a total map from byte addresses to 64-bit words
(read and written only at the word granularity the C code uses); block
pointers and list pointers are addresses, with 0 playing the role of NULL.
-/

/-- Machine words hold sizes below 2^64; the codec masks with ~0xF. -/
def WORD_MODULUS : Nat := 2 ^ 64

/-- Mask ~(word_t)0xF from the source: all 64 bits set except the low 4. -/
def size_mask : Nat := WORD_MODULUS - 16

/-- Codec from malloc.c: OR the alloc flag into bit 0 and the prev-alloc
flag into bit 1 of the size word. -/
def pack (size : Nat) (alloc prev_alloc : Bool) : Nat :=
  (size ||| (if alloc then 1 else 0)) ||| (if prev_alloc then 2 else 0)

/-- Codec from malloc.c: the size occupies the word with the low 4 bits
cleared (`word & ~0xF`). -/
def extract_size (word : Nat) : Nat :=
  word &&& size_mask

/-- Codec: bit 0 of the word is the allocation flag (`word & alloc_mask`). -/
def extract_alloc (word : Nat) : Bool :=
  word &&& 1 != 0

/-- Codec: bit 1 of the word is the prev-alloc flag. -/
def extract_prev_alloc (word : Nat) : Bool :=
  word &&& 2 != 0

/-- Memory: a total map from addresses to word values. -/
def Mem : Type := Nat → Nat

/-- Single word store, the model of `*p = v`. -/
def writeW (m : Mem) (a v : Nat) : Mem :=
  fun x => if x = a then v else m x

/-- Read of `block->header` followed by size extraction (get_size). -/
def get_size (m : Mem) (block : Nat) : Nat :=
  extract_size (m block)

/-- Read of the allocation bit of a block header (get_alloc). -/
def get_alloc (m : Mem) (block : Nat) : Bool :=
  extract_alloc (m block)

/-- Read of the prev-alloc bit of a block header (get_prev_alloc). -/
def get_prev_alloc (m : Mem) (block : Nat) : Bool :=
  extract_prev_alloc (m block)

/-- Rounding helper from the source: `2 * n` when `size ≤ n`, else the
least multiple of `n` that is `≥ size`. -/
def round_up (size n : Nat) : Nat :=
  if size ≤ n then 2 * n else n * ((size + (n - 1)) / n)

/-! ## Heap state and block navigation (naive_malloc.c, arena variant) -/

/-- Constants from the source. -/
def MAXLISTS : Nat := 15

/-- Word size in bytes. -/
def wsize : Nat := 8

/-- Double word size in bytes. -/
def dsize : Nat := 16

/-- Minimum block size in bytes. -/
def min_block_size : Nat := 32

/-- Heap extension granule (1 << 12). -/
def CHUNK_SIZE : Nat := 4096

/-- Bounded best-fit scan length per list (MAX_SEGLIST_SEARCH). -/
def MAX_SEGLIST_SEARCH : Nat := 15

/-- Loop bound constant of the naive find_fit. -/
def SEARCHCOUNT : Nat := 2

/-- State of one heap: its memory image, the segregated list heads (an
entry of 0 is a NULL head), and the arena bookkeeping fields low, size,
heap_start and heap_end from `arena_t`. -/
structure St where
  mem : Mem
  seglists : List Nat
  low : Nat
  size : Nat
  heap_start : Nat
  heap_end : Nat

/-- Navigation: the next contiguous block (find_next). -/
def find_next (m : Mem) (block : Nat) : Nat :=
  block + get_size m block

/-- Navigation: address of the preceding block footer (find_prev_footer). -/
def find_prev_footer (block : Nat) : Nat :=
  block - 8

/-- Navigation: from a footer address back to the block header
(footer_to_header: `footer + wsize - size`). -/
def footer_to_header (m : Mem) (footer : Nat) : Nat :=
  footer + wsize - extract_size (m footer)

/-- Navigation: the previous contiguous block, read through its footer
(find_prev; callable only when the previous block is free). -/
def find_prev (m : Mem) (block : Nat) : Nat :=
  footer_to_header m (find_prev_footer block)

/-- Navigation: payload address of a block (header_to_payload). -/
def header_to_payload (block : Nat) : Nat :=
  block + 8

/-- Navigation: block address from a payload pointer (payload_to_header). -/
def payload_to_header (bp : Nat) : Nat :=
  bp - 8

/-- Write a zero-size allocated epilogue header (write_epilogue). -/
def write_epilogue (s : St) (block : Nat) (prev_alloc : Bool) : St :=
  { s with mem := writeW s.mem block (pack 0 true prev_alloc) }

/-- Write a block header, and also the footer when the block is free; the
footer address is recomputed from the freshly written header exactly as
`header_to_footer` does in the source (write_block). -/
def write_block (s : St) (block size : Nat) (alloc prev_alloc : Bool) : St :=
  if alloc then
    { s with mem := writeW s.mem block (pack size alloc prev_alloc) }
  else
    let m1 := writeW s.mem block (pack size alloc prev_alloc)
    let footerp := block + 8 + extract_size (m1 block) - 16
    { s with mem := writeW m1 footerp (pack size alloc prev_alloc) }

/-- Size-class loop of find_list_for_block: halve until zero, capped at
MAXLISTS - 1. -/
def find_list_loop (size list_ind : Nat) : Nat :=
  if size ≠ 0 ∧ list_ind < MAXLISTS - 1 then find_list_loop (size >>> 1) (list_ind + 1)
  else list_ind
termination_by MAXLISTS - 1 - list_ind
decreasing_by simp [MAXLISTS] at *; omega

/-- Size class of a block: its size shifted right by 6, then the halving
loop (find_list_for_block). -/
def find_list_for_block (m : Mem) (block : Nat) : Nat :=
  find_list_loop (get_size m block >>> 6) 0

/-- LIFO insertion into the segregated list of the block size class
(add_to_free_list); link fields live at offsets 8 and 16 of the block. -/
def add_to_free_list (s : St) (block : Nat) : St :=
  let list_ind := find_list_for_block s.mem block
  if s.seglists.getD list_ind 0 = block then s
  else if s.seglists.getD list_ind 0 = 0 then
    { s with seglists := s.seglists.set list_ind block,
             mem := writeW (writeW s.mem (block + 8) 0) (block + 16) 0 }
  else
    let oldStart := s.seglists.getD list_ind 0
    { s with mem := writeW (writeW (writeW s.mem (block + 16) oldStart)
                             (oldStart + 8) block) (block + 8) 0,
             seglists := s.seglists.set list_ind block }

/-- Doubly-linked removal from the segregated list, dispatching on the
nullity of the two link fields (delete_from_free_list). -/
def delete_from_free_list (s : St) (block : Nat) : St :=
  let list_ind := find_list_for_block s.mem block
  if s.seglists.getD list_ind 0 = 0 then s
  else
    let next := s.mem (block + 16)
    let prev := s.mem (block + 8)
    if prev ≠ 0 ∧ next ≠ 0 then
      { s with mem := writeW (writeW (writeW (writeW s.mem (prev + 16) next)
                               (next + 8) prev) (block + 8) 0) (block + 16) 0 }
    else if prev ≠ 0 ∧ next = 0 then
      { s with mem := writeW s.mem (prev + 16) 0 }
    else if prev = 0 ∧ next ≠ 0 then
      { s with seglists := s.seglists.set list_ind next,
               mem := writeW s.mem (next + 8) 0 }
    else
      { s with seglists := s.seglists.set list_ind 0 }

/-- Boundary-tag coalescing with the four cases keyed by the prev-alloc
bit of the block and the alloc bit of the next block (coalesce_block);
returns the merged block and the new state.  After the case analysis the
block following the merged region has its prev-alloc bit cleared. -/
def coalesce_block (s : St) (block : Nat) : Nat × St :=
  let next := find_next s.mem block
  let prevAlloc := get_prev_alloc s.mem block
  let nextAlloc := get_alloc s.mem next
  let currSize := get_size s.mem block
  let nextSize := get_size s.mem next
  if prevAlloc && nextAlloc then (block, s)
  else
    let step :=
      if prevAlloc && !nextAlloc then
        let s1 := delete_from_free_list s next
        (block, write_block s1 block (currSize + nextSize) false true)
      else if !prevAlloc && nextAlloc then
        let prev := find_prev s.mem block
        let prevSize := get_size s.mem prev
        let s1 := delete_from_free_list s prev
        (prev, write_block s1 prev (currSize + prevSize) false (get_prev_alloc s1.mem prev))
      else
        let prev := find_prev s.mem block
        let prevSize := get_size s.mem prev
        let s1 := delete_from_free_list s next
        let s2 := delete_from_free_list s1 prev
        (prev, write_block s2 prev (currSize + prevSize + nextSize) false
          (get_prev_alloc s2.mem prev))
    let block2 := step.1
    let s2 := step.2
    let next2 := find_next s2.mem block2
    (block2, write_block s2 next2 (get_size s2.mem next2) (get_alloc s2.mem next2) false)

/-! ## Heap extension, splitting, search and allocation -/

/-- Bump-pointer reservation of `length` bytes from an arena
(extend_arena): fail and leave the state untouched when the new end would
exceed `low + size`, otherwise return the old heap_end and advance. -/
def extend_arena (s : St) (length : Nat) : Option Nat × St :=
  let result := s.heap_end
  let new_end := s.heap_end + length
  if s.low + s.size < new_end then (none, s)
  else (some result, { s with heap_end := new_end })

/-- Turn freshly reserved bytes into a free block: the old epilogue
becomes the new header, a new epilogue is written, and the block is
coalesced with a free predecessor and listed (extend_arena_heap). -/
def extend_arena_heap (s : St) (size : Nat) (prev_alloc : Bool) : Option Nat × St :=
  let size := round_up size dsize
  match extend_arena s size with
  | (none, s1) => (none, s1)
  | (some bp, s1) =>
    let block := payload_to_header bp
    let s2 := write_block s1 block size false prev_alloc
    let block_next := find_next s2.mem block
    let s3 := write_epilogue s2 block_next false
    let step := coalesce_block s3 block
    let s5 := add_to_free_list step.2 step.1
    (some step.1, s5)

/-- Carve an allocated prefix of `asize` bytes out of a block and free the
remainder when it is at least the minimum block size (split_block); the
callers guarantee `asize ≤ get_size block`. -/
def split_block (s : St) (block asize : Nat) : St :=
  let block_size := get_size s.mem block
  if min_block_size ≤ block_size - asize then
    let s1 := write_block s block asize true (get_prev_alloc s.mem block)
    let block_next := find_next s1.mem block
    let s2 := write_block s1 block_next (block_size - asize) false true
    add_to_free_list s2 block_next
  else s

/-- Bounded best-fit scan over one list (the loop body of search_list):
follow nextBlockInList fields for at most MAX_SEGLIST_SEARCH blocks,
keeping the block with the least slack, returning early on an exact fit. -/
def search_loop (m : Mem) (asize block count : Nat) (best_fit : Option Nat)
    (fit_error : Nat) : Option Nat :=
  if block = 0 then best_fit
  else if MAX_SEGLIST_SEARCH < count + 1 then best_fit
  else
    let block_size := get_size m block
    if asize ≤ block_size then
      let step :=
        match best_fit with
        | none => (some block, block_size - asize)
        | some _ =>
          if block_size - asize < fit_error then (some block, block_size - asize)
          else (best_fit, fit_error)
      if step.2 = 0 then step.1
      else search_loop m asize (m (block + 16)) (count + 1) step.1 step.2
    else search_loop m asize (m (block + 16)) (count + 1) best_fit fit_error
termination_by MAX_SEGLIST_SEARCH + 1 - count
decreasing_by all_goals simp [MAX_SEGLIST_SEARCH] at *; omega

/-- Bounded best-fit search from a list head (search_list). -/
def search_list (m : Mem) (list_start asize : Nat) : Option Nat :=
  if list_start = 0 then none
  else search_loop m asize list_start 0 none asize

/-- Initial-class loop of find_fit: halve `asize >> 6` until zero with no
cap (the cap is applied afterwards). -/
def min_ind_loop (size min_list_ind : Nat) : Nat :=
  if size ≠ 0 then min_ind_loop (size >>> 1) (min_list_ind + 1) else min_list_ind
termination_by size
decreasing_by simp [Nat.shiftRight_eq_div_pow] at *; omega

/-- List-probing loop of the naive find_fit.  The second conjunct of the
loop condition is the verbatim source condition `min_list_ind +
SEARCHCOUNT`, a nonzero value tested for C truthiness. -/
def ff_loop_naive (m : Mem) (seglists : List Nat) (asize min_list_ind list_ind : Nat) :
    Option Nat :=
  if list_ind < MAXLISTS ∧ min_list_ind + SEARCHCOUNT ≠ 0 then
    match search_list m (seglists.getD list_ind 0) asize with
    | some block => some block
    | none => ff_loop_naive m seglists asize min_list_ind (list_ind + 1)
  else none
termination_by MAXLISTS - list_ind
decreasing_by simp [MAXLISTS] at *; omega

/-- find_fit of the naive single-heap allocator: compute the minimum
class of `asize`, cap it at MAXLISTS - 1, then run the probing loop. -/
def find_fit_naive (s : St) (asize : Nat) : Option Nat :=
  let min0 := min_ind_loop (asize >>> 6) 0
  let min_list_ind := if MAXLISTS - 1 < min0 then MAXLISTS - 1 else min0
  ff_loop_naive s.mem s.seglists asize min_list_ind min_list_ind

/-- List-probing loop of the arena find_fit: probe at most the two lists
`min_list_ind` and `min_list_ind + 1`. -/
def ff_loop_arena (m : Mem) (seglists : List Nat) (asize min_list_ind list_ind : Nat) :
    Option Nat :=
  if list_ind < MAXLISTS ∧ list_ind ≤ min_list_ind + 1 then
    match search_list m (seglists.getD list_ind 0) asize with
    | some block => some block
    | none => ff_loop_arena m seglists asize min_list_ind (list_ind + 1)
  else none
termination_by MAXLISTS - list_ind
decreasing_by simp [MAXLISTS] at *; omega

/-- find_fit of the arena allocator (and of the arena-cached allocator,
whose copy is identical). -/
def find_fit_arena (s : St) (asize : Nat) : Option Nat :=
  let min0 := min_ind_loop (asize >>> 6) 0
  let min_list_ind := if MAXLISTS - 1 < min0 then MAXLISTS - 1 else min0
  ff_loop_arena s.mem s.seglists asize min_list_ind min_list_ind

/-- Shared placement tail of the arena `_malloc`: mark the fit allocated,
unlist it, split it, propagate prev-alloc into the next header, and return
the payload pointer. -/
def malloc_place (s : St) (block asize : Nat) : Option Nat × St :=
  let block_size := get_size s.mem block
  let s1 := write_block s block block_size true (get_prev_alloc s.mem block)
  let s2 := delete_from_free_list s1 block
  let s3 := split_block s2 block asize
  let next := find_next s3.mem block
  let s4 := write_block s3 next (get_size s3.mem next) (get_alloc s3.mem next) true
  (some (header_to_payload block), s4)

/-- Static `_malloc` of the arena variant: refuse size 0, adjust the size,
search the two candidate lists, fall back to heap extension, place. -/
def malloc_arena (s : St) (size : Nat) : Option Nat × St :=
  if size = 0 then (none, s)
  else
    let asize := round_up (size + wsize) dsize
    match find_fit_arena s asize with
    | some block => malloc_place s block asize
    | none =>
      let extendsize := max asize CHUNK_SIZE
      match extend_arena_heap s extendsize
          (extract_prev_alloc (s.mem (s.heap_end - 8))) with
      | (none, s1) => (none, s1)
      | (some block, s1) => malloc_place s1 block asize

/-! ## Arena dispatcher (get_arena) and the eviction coin -/

/-- Number of arenas the dispatcher initializes (arena_malloc_init). -/
def NUM_ARENAS : Int := 10

/-- Value of the signed 32-bit counter `last_used` after `k` atomic
increments starting from 0, with two-complement wraparound. -/
def last_used_after (k : Nat) : Int :=
  ((k + 2 ^ 31 : Int) % 2 ^ 32) - 2 ^ 31

/-- Arena index computed by get_arena: the fetched counter value taken
`%` the arena count with C truncated division. -/
def get_arena_index (v n : Int) : Int :=
  Int.tmod v n

/-- RAND_MAX of the host C library. -/
def RAND_MAX : Nat := 2147483647

/-- Eviction probability constant: the exact rational value of the float
literal 0.1f, namely 13421773 * 2 ^ (-27). -/
def CACHE_EVICT_PROBABILITY : ℚ := 13421773 / 134217728

/-- The guard `(double)(rand() / RAND_MAX) < CACHE_EVICT_PROBABILITY` from
arena_cached_free: `rand() / RAND_MAX` is C integer division, whose result
converts exactly to double, and the comparison of that value with the
constant is exact, so the guard is modelled over ℚ. -/
def evict_guard (r : Nat) : Bool :=
  decide (((r / RAND_MAX : Nat) : ℚ) < CACHE_EVICT_PROBABILITY)

/-! ## Thread cache (thread_cache.c) -/

/-- Maximum number of cached blocks. -/
def CACHE_MAX_ENTRIES : Nat := 8

/-- Maximum total bytes held by one cache (1 MiB). -/
def CACHE_MAX_SIZE : Nat := 1 <<< 20

/-- Per-thread cache state: the slot array (0 is an empty slot), the entry
and byte counters, and the cached lowest occupied index. -/
structure cache_t where
  elems : List Nat
  num_entries : Nat
  total_size : Nat
  front : Nat
deriving DecidableEq

/-- cache_init: all slots empty, counters zero, front at the sentinel. -/
def cache_init : cache_t :=
  { elems := List.replicate CACHE_MAX_ENTRIES 0,
    num_entries := 0, total_size := 0, front := CACHE_MAX_ENTRIES }

/-- Index of the first empty slot, the search performed by the insertion
loop of cache_add. -/
def firstEmpty : List Nat → Option Nat
  | [] => none
  | x :: xs => if x = 0 then some 0 else (firstEmpty xs).map (· + 1)

/-- cache_add: refuse a full cache or a byte-budget overflow, otherwise
place the block in the first empty slot, bump the counters and lower
front if needed.  As in the source, the function reports true even if the
slot scan found no empty slot (which cannot happen when the entry counter
is consistent with the slots). -/
def cache_add (m : Mem) (c : cache_t) (block : Nat) : Bool × cache_t :=
  if c.num_entries = CACHE_MAX_ENTRIES then (false, c)
  else
    let bsize := get_size m block
    if CACHE_MAX_SIZE < c.total_size + bsize then (false, c)
    else
      match firstEmpty c.elems with
      | none => (true, c)
      | some i =>
        (true, { elems := c.elems.set i block,
                 num_entries := c.num_entries + 1,
                 total_size := c.total_size + bsize,
                 front := if i < c.front then i else c.front })

/-- Advance loop shared by cache_evict and cache_query: move front up
past empty slots, stopping at CACHE_MAX_ENTRIES. -/
def advance (elems : List Nat) (front : Nat) : Nat :=
  if front < CACHE_MAX_ENTRIES ∧ elems.getD front 0 = 0 then advance elems (front + 1)
  else front
termination_by CACHE_MAX_ENTRIES - front
decreasing_by simp [CACHE_MAX_ENTRIES] at *; omega

/-- cache_evict: remove and return the front block.  The none result
models the failure of the `assert(num_entries > 0)` of the source (and
the out-of-range access to elems[front] that a release build would
perform after it). -/
def cache_evict (m : Mem) (c : cache_t) : Option (Nat × cache_t) :=
  if c.num_entries = 0 then none
  else
    match c.elems.getD c.front 0 with
    | 0 => none
    | b =>
      let elems2 := c.elems.set c.front 0
      some (b, { elems := elems2,
                 num_entries := c.num_entries - 1,
                 total_size := c.total_size - get_size m b,
                 front := advance elems2 c.front })

/-- Scan loop of cache_query: from index `i` upward return the first
occupied slot whose block size is at least the request. -/
def query_loop (m : Mem) (elems : List Nat) (size i : Nat) : Option (Nat × Nat) :=
  if i < CACHE_MAX_ENTRIES then
    let b := elems.getD i 0
    if b = 0 then query_loop m elems size (i + 1)
    else if size ≤ get_size m b then some (i, b)
    else query_loop m elems size (i + 1)
  else none
termination_by CACHE_MAX_ENTRIES - i
decreasing_by all_goals simp [CACHE_MAX_ENTRIES] at *; omega

/-- cache_query: first-fit scan from front; on a hit clear the slot,
drop the counters, and advance front when the hit was at front. -/
def cache_query (m : Mem) (c : cache_t) (size : Nat) : Option Nat × cache_t :=
  match query_loop m c.elems size c.front with
  | none => (none, c)
  | some (i, b) =>
    let elems2 := c.elems.set i 0
    (some b, { elems := elems2,
               num_entries := c.num_entries - 1,
               total_size := c.total_size - get_size m b,
               front := if i = c.front then advance elems2 c.front else c.front })

/-! ## Arena-cached façade (arena_cached_malloc / arena_cached_free) -/

/-- arena_cached_malloc: query the thread cache with the raw request size
first and return the payload of a hit; only on a miss take the arena path
(abstracted here as `arenaPath`, the get_arena / lazy-init / malloc_arena
sequence, which never touches the thread cache). -/
def arena_cached_malloc (m : Mem) (c : cache_t) (arenaPath : Nat → Option Nat)
    (size : Nat) : Option Nat × cache_t :=
  match cache_query m c size with
  | (some block, c1) => (some (header_to_payload block), c1)
  | (none, c1) => (arenaPath size, c1)

/-- arena_cached_free: try to insert the block; on failure flip the
eviction coin (`r` is the value drawn from rand()), evict and retry, and
finally hand unplaced blocks to truly_free.  The result records the final
cache and the blocks passed to truly_free in order; none models the
assertion failure inside cache_evict. -/
def arena_cached_free (m : Mem) (c : cache_t) (r : Nat) (block : Nat) :
    Option (cache_t × List Nat) :=
  match cache_add m c block with
  | (true, c1) => some (c1, [])
  | (false, c1) =>
    if evict_guard r then
      match cache_evict m c1 with
      | none => none
      | some (evicted, c2) =>
        match cache_add m c2 block with
        | (true, c3) => some (c3, [evicted])
        | (false, c3) => some (c3, [evicted, block])
    else some (c1, [block])

/-- State invariant of the thread cache: the entry counter counts the
occupied slots, the byte counter sums their block sizes, and front is the
lowest occupied index, with the sentinel CACHE_MAX_ENTRIES when the cache
is empty (advance from 0 computes exactly that index). -/
def cache_inv (m : Mem) (c : cache_t) : Prop :=
  c.elems.length = CACHE_MAX_ENTRIES ∧
  c.num_entries = (c.elems.filter (fun x => x != 0)).length ∧
  c.total_size = ((c.elems.filter (fun x => x != 0)).map (get_size m)).sum ∧
  c.front = advance c.elems 0

/-! ## Concrete states used by witnesses and counterexamples -/

/-- Arena with capacity 100 at base 0 and heap_end 40, for exercising
extend_arena. -/
def stExt : St :=
  { mem := fun _ => 0, seglists := [], low := 0, size := 100,
    heap_start := 8, heap_end := 40 }

/-- Memory image holding one 32-byte block at address 100, marked
allocated (as blocks handed to the thread cache are). -/
def memC : Mem := fun a => if a = 100 then pack 32 true true else 0

/-- Reachable cache holding that one 32-byte block: the result of a
successful cache_add on a fresh cache. -/
def cacheC : cache_t := (cache_add memC cache_init 100).2

/-- Memory image holding one block of size 2^20 + 16 (over the cache byte
budget) at address 64. -/
def memBig : Mem := fun a => if a = 64 then pack 1048592 true true else 0

/-- Memory image with a free 256-byte block at address 100 whose list
links are NULL. -/
def memFF : Mem := fun a => if a = 100 then pack 256 false true else 0

/-- Heap state whose only free block, of size 256, sits in segregated
list 3 (its size class); lists 0 and 1 are empty. -/
def stFF : St :=
  { mem := memFF, seglists := [0, 0, 0, 100, 0, 0, 0, 0, 0, 0, 0, 0, 0, 0, 0],
    low := 0, size := 0, heap_start := 0, heap_end := 0 }

/-- Memory image with an allocated 64-byte block at 100 and an allocated
32-byte block at 200, both of the shape blocks in the thread cache have. -/
def memQ : Mem := fun a =>
  if a = 100 then pack 64 true true else if a = 200 then pack 32 true true else 0

/-- Reachable cache holding the 64-byte block at slot 0. -/
def cacheQ : cache_t := (cache_add memQ cache_init 100).2

/-- Heap neighbourhood for coalescing: a free 32-byte block at 96 (sole
member of list 0), the 32-byte block at 128 being freed, a free 128-byte
block at 160 (sole member of list 2), and an allocated zero-size epilogue
at 288.  Footers sit at 120, 152 and 280. -/
def memCo : Mem := fun a =>
  if a = 96 then pack 32 false true
  else if a = 120 then pack 32 false true
  else if a = 128 then pack 32 false false
  else if a = 152 then pack 32 false false
  else if a = 160 then pack 128 false false
  else if a = 280 then pack 128 false false
  else if a = 288 then pack 0 true false
  else 0

/-- Heap state around the coalescing scenario; list 0 holds the block at
96 and list 2 the block at 160. -/
def stCo : St :=
  { mem := memCo, seglists := [96, 0, 160, 0, 0, 0, 0, 0, 0, 0, 0, 0, 0, 0, 0],
    low := 0, size := 0, heap_start := 0, heap_end := 0 }
section BitLemmas

lemma size_mask_eq : size_mask = (2 ^ 60 - 1) <<< 4 := by
  simp [size_mask, WORD_MODULUS, Nat.shiftLeft_eq]

lemma testBit_size_mask (i : Nat) :
    Nat.testBit size_mask i = (decide (4 ≤ i) && decide (i < 64)) := by
  rw [size_mask_eq, Nat.testBit_shiftLeft, Nat.testBit_two_pow_sub_one]
  rcases Nat.lt_or_ge i 4 with h | h
  · simp [Nat.not_le.mpr h, show ¬ 4 ≤ i from Nat.not_le.mpr h]
  · simp [h, Nat.le_of_lt]
    omega

lemma testBit_false_of_mod16 {s : Nat} (h : s % 16 = 0) {i : Nat} (hi : i < 4) :
    Nat.testBit s i = false := by
  rw [Nat.testBit_to_div_mod]
  interval_cases i <;> simp <;> omega

lemma testBit_flag1 {a : Bool} {i : Nat} (hi : 1 ≤ i) :
    Nat.testBit (if a then 1 else 0) i = false := by
  apply Nat.testBit_lt_two_pow
  have : (2:Nat) ≤ 2 ^ i := by
    calc (2:Nat) = 2 ^ 1 := by norm_num
    _ ≤ 2 ^ i := Nat.pow_le_pow_right (by norm_num) hi
  cases a <;> simp <;> omega

lemma testBit_flag2 {p : Bool} {i : Nat} (hi : 2 ≤ i) :
    Nat.testBit (if p then 2 else 0) i = false := by
  apply Nat.testBit_lt_two_pow
  have : (4:Nat) ≤ 2 ^ i := by
    calc (4:Nat) = 2 ^ 2 := by norm_num
    _ ≤ 2 ^ i := Nat.pow_le_pow_right (by norm_num) hi
  cases p <;> simp <;> omega

/-- Packing a 16-aligned size below 2^64 and then extracting the size is
the identity: the flag bits never clobber size bits. -/
lemma extract_size_pack {size : Nat} (a p : Bool)
    (h16 : size % 16 = 0) (hlt : size < WORD_MODULUS) :
    extract_size (pack size a p) = size := by
  apply Nat.eq_of_testBit_eq
  intro i
  rw [extract_size, Nat.testBit_land, testBit_size_mask, pack,
    Nat.testBit_lor, Nat.testBit_lor]
  rcases Nat.lt_or_ge i 4 with h4 | h4
  · simp [Nat.not_le.mpr h4, testBit_false_of_mod16 h16 h4]
  · rcases Nat.lt_or_ge i 64 with h64 | h64
    · rw [testBit_flag1 (show 1 ≤ i by omega), testBit_flag2 (show 2 ≤ i by omega)]
      simp [h4, h64]
    · have hs : Nat.testBit size i = false := by
        apply Nat.testBit_lt_two_pow
        calc size < WORD_MODULUS := hlt
        _ = 2 ^ 64 := rfl
        _ ≤ 2 ^ i := Nat.pow_le_pow_right (by norm_num) h64
      rw [hs]
      simp [show ¬ i < 64 from Nat.not_lt.mpr h64]

/-- Extracting the alloc bit of a packed word recovers the alloc flag. -/
lemma extract_alloc_pack {size : Nat} (a p : Bool) (h16 : size % 16 = 0) :
    extract_alloc (pack size a p) = a := by
  have h0 : Nat.testBit (pack size a p) 0 = a := by
    rw [pack, Nat.testBit_lor, Nat.testBit_lor,
      testBit_false_of_mod16 h16 (by norm_num)]
    cases a <;> cases p <;> decide
  have hland : pack size a p &&& 1 = (Nat.testBit (pack size a p) 0).toNat := by
    have h := Nat.and_two_pow (pack size a p) 0
    simp only [pow_zero, mul_one] at h
    exact h
  rw [extract_alloc, hland, h0]
  cases a <;> decide

/-- Extracting the prev-alloc bit of a packed word recovers the flag. -/
lemma extract_prev_alloc_pack {size : Nat} (a p : Bool) (h16 : size % 16 = 0) :
    extract_prev_alloc (pack size a p) = p := by
  have h1 : Nat.testBit (pack size a p) 1 = p := by
    rw [pack, Nat.testBit_lor, Nat.testBit_lor,
      testBit_false_of_mod16 h16 (by norm_num)]
    cases a <;> cases p <;> decide
  have hland : pack size a p &&& 2 = (Nat.testBit (pack size a p) 1).toNat * 2 := by
    have h := Nat.and_two_pow (pack size a p) 1
    simp only [pow_one] at h
    exact h
  rw [extract_prev_alloc, hland, h1]
  cases p <;> decide

lemma extract_size_lt (w : Nat) : extract_size w < WORD_MODULUS := by
  have h : extract_size w ≤ size_mask := Nat.and_le_right
  have hm : size_mask < WORD_MODULUS := by
    simp [size_mask, WORD_MODULUS]
  omega

lemma writeW_same (m : Mem) (a v : Nat) : writeW m a v a = v := by
  simp [writeW]

lemma writeW_ne (m : Mem) (a v x : Nat) (h : x ≠ a) : writeW m a v x = m x := by
  simp [writeW, h]

end BitLemmas
section HelperLemmas

/-- The extracted size always has its low four bits clear. -/
lemma extract_size_mod16 (w : Nat) : extract_size w % 16 = 0 := by
  have h : extract_size w % 16 = extract_size w % 2 ^ 4 := by norm_num
  rw [h]
  apply Nat.eq_of_testBit_eq
  intro i
  rw [Nat.testBit_mod_two_pow]
  rcases Nat.lt_or_ge i 4 with h4 | h4
  · rw [extract_size, Nat.testBit_land, testBit_size_mask]
    simp [Nat.not_le.mpr h4]
  · simp [Nat.not_lt.mpr h4]

/-- write_block never touches the segregated list heads. -/
lemma write_block_seglists (s : St) (blk sz : Nat) (al pa : Bool) :
    (write_block s blk sz al pa).seglists = s.seglists := by
  unfold write_block
  split <;> rfl

/-- write_block and the arena bookkeeping fields. -/
lemma write_block_heap_end (s : St) (blk sz : Nat) (al pa : Bool) :
    (write_block s blk sz al pa).heap_end = s.heap_end := by
  unfold write_block
  split <;> rfl

/-- A write_block of an aligned bounded size leaves every address other
than the header and the footer untouched. -/
lemma write_block_mem_ne {s : St} {blk sz a : Nat} {al pa : Bool}
    (h16 : sz % 16 = 0) (hlt : sz < WORD_MODULUS)
    (ha : a ≠ blk) (hf : a ≠ blk + 8 + sz - 16) :
    (write_block s blk sz al pa).mem a = s.mem a := by
  unfold write_block
  split
  · exact writeW_ne _ _ _ _ ha
  · have hm1 : writeW s.mem blk (pack sz al pa) blk = pack sz al pa := writeW_same _ _ _
    simp only [hm1, extract_size_pack al pa h16 hlt]
    rw [writeW_ne _ _ _ _ hf, writeW_ne _ _ _ _ ha]

/-- A free write_block of an aligned bounded size at least 16 puts the
packed word at the header address. -/
lemma write_block_mem_self_free {s : St} {blk sz : Nat} {pa : Bool}
    (h16 : sz % 16 = 0) (hlt : sz < WORD_MODULUS) (hge : 16 ≤ sz) :
    (write_block s blk sz false pa).mem blk = pack sz false pa := by
  unfold write_block
  simp only [Bool.false_eq_true, if_false]
  have hm1 : writeW s.mem blk (pack sz false pa) blk = pack sz false pa := writeW_same _ _ _
  simp only [hm1, extract_size_pack false pa h16 hlt]
  rw [writeW_ne _ _ _ _ (by omega), hm1]

/-- Removing a block that is the sole member of its list (NULL links, at
the head) just clears the list head. -/
lemma delete_sole (s : St) (blk : Nat)
    (hpl : s.mem (blk + 8) = 0) (hnl : s.mem (blk + 16) = 0) (hblk : blk ≠ 0)
    (hhead : s.seglists.getD (find_list_for_block s.mem blk) 0 = blk) :
    delete_from_free_list s blk =
      { s with seglists := s.seglists.set (find_list_for_block s.mem blk) 0 } := by
  unfold delete_from_free_list
  simp only [hhead, hpl, hnl]
  simp [hblk]

/-- The eviction coin as the source computes it lands on the evict side
for every rand() value below RAND_MAX: the integer quotient is 0 and
0 < 0.1f. -/
lemma evict_guard_true_of_lt {r : Nat} (h : r < RAND_MAX) : evict_guard r = true := by
  unfold evict_guard
  rw [Nat.div_eq_of_lt h]
  unfold CACHE_EVICT_PROBABILITY
  norm_num

/-- At exactly RAND_MAX the quotient is 1 and the guard is false. -/
lemma evict_guard_false_at_max : evict_guard RAND_MAX = false := by
  unfold evict_guard
  rw [Nat.div_self (by unfold RAND_MAX; omega)]
  unfold CACHE_EVICT_PROBABILITY
  norm_num

end HelperLemmas

/-! ## Claim C7: extend_arena -/

/-- C7: for every arena state and length, extend_arena returns none
exactly when heap_end + length would exceed low + size, leaving the state
unchanged in that case; otherwise it returns the old heap_end and
advances heap_end by exactly length, touching nothing else. -/
theorem c7_extend_arena_spec (s : St) (length : Nat) :
    ((extend_arena s length).1 = none ↔ s.low + s.size < s.heap_end + length) ∧
    (s.low + s.size < s.heap_end + length → (extend_arena s length).2 = s) ∧
    (s.heap_end + length ≤ s.low + s.size →
      (extend_arena s length).1 = some s.heap_end ∧
      (extend_arena s length).2.heap_end = s.heap_end + length ∧
      (extend_arena s length).2.mem = s.mem ∧
      (extend_arena s length).2.seglists = s.seglists) := by
  unfold extend_arena
  by_cases h : s.low + s.size < s.heap_end + length
  · simp [h]
  · simp [h]

/-- Witness for C7 on a concrete arena: a 50-byte reservation from
heap_end 40 with capacity 100 succeeds and advances to 90, while a
70-byte reservation fails and leaves the state unchanged. -/
theorem c7_extend_arena_spec_witness :
    (extend_arena stExt 50).1 = some 40 ∧
    (extend_arena stExt 50).2.heap_end = 90 ∧
    (extend_arena stExt 70).1 = none ∧
    (extend_arena stExt 70).2 = stExt := by
  have hok := (c7_extend_arena_spec stExt 50).2.2 (by decide)
  have hfail := (c7_extend_arena_spec stExt 70).2.1 (by decide)
  have hnone := (c7_extend_arena_spec stExt 70).1.mpr (by decide)
  exact ⟨hok.1, hok.2.1, hnone, hfail⟩

/-! ## Claim C5: get_arena index range -/

/-- C5 counterexample: after 2^31 increments the fetched value of the
signed 32-bit counter is -2^31, and the C remainder by the arena count 10
is -8, which is not a valid arena index. -/
theorem c5_counterexample :
    get_arena_index (last_used_after (2 ^ 31)) NUM_ARENAS = -8 ∧
    ¬ (0 ≤ get_arena_index (last_used_after (2 ^ 31)) NUM_ARENAS) := by
  decide

/-- C5 amended: as long as the counter has been incremented fewer than
2^31 times, the fetched value is the call number itself and the computed
arena index lies in [0, NUM_ARENAS). -/
theorem c5_index_in_range (k : Nat) (h : k < 2 ^ 31) :
    0 ≤ get_arena_index (last_used_after k) NUM_ARENAS ∧
    get_arena_index (last_used_after k) NUM_ARENAS < NUM_ARENAS := by
  have hv : last_used_after k = (k : Int) := by
    unfold last_used_after
    have hk : (k : Int) < 2 ^ 31 := by exact_mod_cast h
    have hk0 : (0 : Int) ≤ (k : Int) := Int.natCast_nonneg k
    omega
  rw [hv]
  unfold get_arena_index NUM_ARENAS
  have h0 : (0 : Int) ≤ (k : Int) := Int.natCast_nonneg k
  rw [Int.tmod_eq_emod h0 (by norm_num)]
  omega

/-- Witness for C5 at call number 5: the index is well in range. -/
theorem c5_index_in_range_witness :
    5 < 2 ^ 31 ∧
    (0 ≤ get_arena_index (last_used_after 5) NUM_ARENAS ∧
     get_arena_index (last_used_after 5) NUM_ARENAS < NUM_ARENAS) :=
  ⟨by norm_num, c5_index_in_range 5 (by norm_num)⟩

/-! ## Claim C6: the eviction guard -/

/-- C6 counterexample: at rand() = 0 the guard
`(double)(rand() / RAND_MAX) < CACHE_EVICT_PROBABILITY` evaluates to
true, refuting the claim that it always evaluates to false. -/
theorem c6_counterexample : evict_guard 0 = true :=
  evict_guard_true_of_lt (by norm_num [RAND_MAX])

/-- C6 amended: for every rand() value in [0, RAND_MAX], the guard is
true exactly when the value is strictly below RAND_MAX; the
integer-division quotient is then 0 and 0 < 0.1f, so the evict branch is
taken on all but one of the RAND_MAX + 1 possible draws. -/
theorem c6_guard_iff (r : Nat) (h : r ≤ RAND_MAX) :
    evict_guard r = true ↔ r < RAND_MAX := by
  constructor
  · intro hg
    by_contra hlt
    have he : r = RAND_MAX := by omega
    rw [he, evict_guard_false_at_max] at hg
    exact absurd hg (by simp)
  · exact fun hlt => evict_guard_true_of_lt hlt

/-- Witness for C6 at rand() = 7. -/
theorem c6_guard_iff_witness :
    7 ≤ RAND_MAX ∧ (evict_guard 7 = true ↔ 7 < RAND_MAX) :=
  ⟨by decide, c6_guard_iff 7 (by decide)⟩

/-! ## Claims C1 and C2: the cache-first allocation path -/

/-- C1 (reported bug): the arena-cached allocator queries the thread
cache with the raw request size instead of the adjusted size.  With a
reachable cache holding one 32-byte block, the request alloc(32) hits the
cache and returns that block, although the adjusted size of the request
is round_up(32 + 8, 16) = 48, so the block is too small to hold 32
payload bytes; this holds whatever the arena path would have returned. -/
theorem c1_cache_hit_undersized (arenaPath : Nat → Option Nat) :
    (arena_cached_malloc memC cacheC arenaPath 32).1 =
      some (header_to_payload 100) ∧
    get_size memC 100 = 32 ∧
    round_up (32 + wsize) dsize = 48 ∧
    get_size memC 100 < round_up (32 + wsize) dsize := by
  have hc : cacheC = ⟨[100, 0, 0, 0, 0, 0, 0, 0], 1, 32, 0⟩ := by decide
  have hgs : get_size memC 100 = 32 := by decide
  refine ⟨?_, hgs, by decide, by decide⟩
  simp [arena_cached_malloc, cache_query, query_loop, hc, hgs, CACHE_MAX_ENTRIES]

/-- C2 (reported bug): the cache is queried before the size check, and a
cache_query for size 0 accepts any cached block, so alloc(0) on the
arena-cached variant returns a non-none pointer whenever the thread cache
is non-empty — whatever the arena path would have returned.  The arena
static `_malloc` itself does return none for size 0. -/
theorem c2_alloc_zero (arenaPath : Nat → Option Nat) :
    (arena_cached_malloc memC cacheC arenaPath 0).1 =
      some (header_to_payload 100) ∧
    (∀ s : St, malloc_arena s 0 = (none, s)) := by
  have hc : cacheC = ⟨[100, 0, 0, 0, 0, 0, 0, 0], 1, 32, 0⟩ := by decide
  have hgs : get_size memC 100 = 32 := by decide
  constructor
  · simp [arena_cached_malloc, cache_query, query_loop, hc, hgs, CACHE_MAX_ENTRIES]
  · intro s
    unfold malloc_arena
    simp

/-! ## Claim C3: eviction from an empty cache -/

/-- C3 (reported bug): freeing a block larger than the cache byte budget
while the thread cache is empty makes cache_add fail on the size check
with num_entries = 0; the free path still flips the eviction coin (true
for rand() = 0) and calls cache_evict on the empty cache, where the
assertion `num_entries > 0` fails — modelled by the none result. -/
theorem c3_evict_on_empty_cache :
    arena_cached_free memBig cache_init 0 64 = none ∧
    CACHE_MAX_SIZE < get_size memBig 64 ∧
    cache_init.num_entries = 0 := by
  have hadd : cache_add memBig cache_init 64 = (false, cache_init) := by decide
  have hg : evict_guard 0 = true := evict_guard_true_of_lt (by norm_num [RAND_MAX])
  have hev : cache_evict memBig cache_init = none := by decide
  refine ⟨?_, by decide, by decide⟩
  simp [arena_cached_free, hadd, hg, hev]

/-! ## Claim C4: the two-list probing cap of find_fit -/

/-- C4 (reported bug): with a request of adjusted size 48 (class 0) and a
heap whose only free block, of size 256, sits in list 3, the naive
find_fit returns that block — its loop condition `min_list_ind +
SEARCHCOUNT` is a constant nonzero value, so every list from the minimum
class through 14 is probed — while the arena find_fit, which implements
the two-list cap of the specification, probes only lists 0 and 1 and
falls through to heap extension with none. -/
theorem c4_naive_probes_deeper :
    find_fit_naive stFF 48 = some 100 ∧ find_fit_arena stFF 48 = none := by
  have h100 : get_size memFF 100 = 256 := by decide
  have h116 : memFF 116 = 0 := by decide
  constructor
  · simp [find_fit_naive, min_ind_loop, ff_loop_naive, search_list, search_loop,
      stFF, h100, h116, MAXLISTS, SEARCHCOUNT, MAX_SEGLIST_SEARCH]
  · simp [find_fit_arena, min_ind_loop, ff_loop_arena, search_list,
      stFF, MAXLISTS, MAX_SEGLIST_SEARCH]

/-! ## Claim C8: the four coalescing cases -/

/-- Case (1,1): both neighbours allocated, the block is returned with the
state untouched. -/
lemma coalesce_both_alloc (s : St) (b : Nat)
    (hp : extract_prev_alloc (s.mem b) = true)
    (hn : extract_alloc (s.mem (b + extract_size (s.mem b))) = true) :
    coalesce_block s b = (b, s) := by
  unfold coalesce_block
  simp [find_next, get_size, get_alloc, get_prev_alloc, hp, hn]

/-- Case (1,0): next block free, it is removed from its list and the
block is rewritten with the summed size at the same address. -/
lemma coalesce_next_free (s : St) (b sb sn : Nat)
    (Hsb : extract_size (s.mem b) = sb)
    (Hsn : extract_size (s.mem (b + sb)) = sn)
    (hp : extract_prev_alloc (s.mem b) = true)
    (hn : extract_alloc (s.mem (b + sb)) = false)
    (h32b : 32 ≤ sb) (h16b : sb % 16 = 0)
    (h32n : 32 ≤ sn) (h16n : sn % 16 = 0)
    (hlt : sb + sn < WORD_MODULUS) :
    (coalesce_block s b).1 = b ∧
    extract_size ((coalesce_block s b).2.mem b) = sb + sn ∧
    extract_alloc ((coalesce_block s b).2.mem b) = false ∧
    (coalesce_block s b).2.seglists =
      (delete_from_free_list s (b + sb)).seglists := by
  have hfn : find_next s.mem b = b + sb := by
    simp [find_next, get_size, Hsb]
  unfold coalesce_block
  simp only [hfn, get_prev_alloc, get_alloc, get_size, hp, hn, Hsb, Hsn,
    Bool.not_false, Bool.and_true, Bool.true_and, Bool.and_false, Bool.false_and,
    Bool.not_true, if_false, if_true, Bool.false_eq_true, ite_false, ite_true]
  set s1 := delete_from_free_list s (b + sb) with hs1def
  have hmb : (write_block s1 b (sb + sn) false true).mem b = pack (sb + sn) false true :=
    write_block_mem_self_free (by omega) hlt (by omega)
  have hfn2 : find_next (write_block s1 b (sb + sn) false true).mem b = b + (sb + sn) := by
    simp [find_next, get_size, hmb, extract_size_pack false true (by omega) hlt]
  simp only [hfn2]
  set s2 := write_block s1 b (sb + sn) false true with hs2def
  have hne : (write_block s2 (b + (sb + sn))
      (extract_size (s2.mem (b + (sb + sn))))
      (extract_alloc (s2.mem (b + (sb + sn)))) false).mem b
      = s2.mem b := by
    apply write_block_mem_ne (extract_size_mod16 _) (extract_size_lt _)
    · omega
    · omega
  refine ⟨trivial, ?_, ?_, ?_⟩
  · rw [hne, hmb, extract_size_pack false true (by omega) hlt]
  · rw [hne, hmb, extract_alloc_pack false true (by omega)]
  · rw [write_block_seglists, hs2def, write_block_seglists]

/-- Case (0,1): previous block free, it is located through the footer,
removed from its list, and rewritten with the summed size; the merged
block is the previous block. -/
lemma coalesce_prev_free (s : St) (b sb sp : Nat)
    (Hsb : extract_size (s.mem b) = sb)
    (hp : extract_prev_alloc (s.mem b) = false)
    (hn : extract_alloc (s.mem (b + sb)) = true)
    (Hft : extract_size (s.mem (b - 8)) = sp)
    (Hph : extract_size (s.mem (b - sp)) = sp)
    (h32b : 32 ≤ sb) (h16b : sb % 16 = 0)
    (h32p : 32 ≤ sp) (h16p : sp % 16 = 0) (hpb : sp ≤ b)
    (hlt : sb + sp < WORD_MODULUS) :
    (coalesce_block s b).1 = b - sp ∧
    extract_size ((coalesce_block s b).2.mem (b - sp)) = sb + sp ∧
    extract_alloc ((coalesce_block s b).2.mem (b - sp)) = false ∧
    (coalesce_block s b).2.seglists =
      (delete_from_free_list s (b - sp)).seglists := by
  have hfn : find_next s.mem b = b + sb := by
    simp [find_next, get_size, Hsb]
  have hfp : find_prev s.mem b = b - sp := by
    simp [find_prev, footer_to_header, find_prev_footer, wsize, Hft]
    omega
  unfold coalesce_block
  simp only [hfn, hfp, get_prev_alloc, get_alloc, get_size, hp, hn, Hsb, Hph,
    Bool.not_false, Bool.and_true, Bool.true_and, Bool.and_false, Bool.false_and,
    Bool.not_true, if_false, if_true, Bool.false_eq_true, ite_false, ite_true]
  set s1 := delete_from_free_list s (b - sp) with hs1def
  set pa := extract_prev_alloc (s1.mem (b - sp)) with hpadef
  have hmb : (write_block s1 (b - sp) (sb + sp) false pa).mem (b - sp) =
      pack (sb + sp) false pa :=
    write_block_mem_self_free (by omega) hlt (by omega)
  have hfn2 : find_next (write_block s1 (b - sp) (sb + sp) false pa).mem (b - sp) =
      (b - sp) + (sb + sp) := by
    simp [find_next, get_size, hmb, extract_size_pack false pa (by omega) hlt]
  simp only [hfn2]
  set s2 := write_block s1 (b - sp) (sb + sp) false pa with hs2def
  have hne : (write_block s2 ((b - sp) + (sb + sp))
      (extract_size (s2.mem ((b - sp) + (sb + sp))))
      (extract_alloc (s2.mem ((b - sp) + (sb + sp)))) false).mem (b - sp)
      = s2.mem (b - sp) := by
    apply write_block_mem_ne (extract_size_mod16 _) (extract_size_lt _)
    · omega
    · omega
  refine ⟨trivial, ?_, ?_, ?_⟩
  · rw [hne, hmb, extract_size_pack false pa (by omega) hlt]
  · rw [hne, hmb, extract_alloc_pack false pa (by omega)]
  · rw [write_block_seglists, hs2def, write_block_seglists]

/-- Case (0,0): both neighbours free, both are removed from their lists
and the previous block is rewritten with the threefold summed size. -/
lemma coalesce_both_free (s : St) (b sb sn sp : Nat)
    (Hsb : extract_size (s.mem b) = sb)
    (Hsn : extract_size (s.mem (b + sb)) = sn)
    (hp : extract_prev_alloc (s.mem b) = false)
    (hn : extract_alloc (s.mem (b + sb)) = false)
    (Hft : extract_size (s.mem (b - 8)) = sp)
    (Hph : extract_size (s.mem (b - sp)) = sp)
    (h32b : 32 ≤ sb) (h16b : sb % 16 = 0)
    (h32n : 32 ≤ sn) (h16n : sn % 16 = 0)
    (h32p : 32 ≤ sp) (h16p : sp % 16 = 0) (hpb : sp ≤ b)
    (hlt : sb + sp + sn < WORD_MODULUS) :
    (coalesce_block s b).1 = b - sp ∧
    extract_size ((coalesce_block s b).2.mem (b - sp)) = sb + sp + sn ∧
    extract_alloc ((coalesce_block s b).2.mem (b - sp)) = false ∧
    (coalesce_block s b).2.seglists =
      (delete_from_free_list (delete_from_free_list s (b + sb)) (b - sp)).seglists := by
  have hfn : find_next s.mem b = b + sb := by
    simp [find_next, get_size, Hsb]
  have hfp : find_prev s.mem b = b - sp := by
    simp [find_prev, footer_to_header, find_prev_footer, wsize, Hft]
    omega
  unfold coalesce_block
  simp only [hfn, hfp, get_prev_alloc, get_alloc, get_size, hp, hn, Hsb, Hsn, Hph,
    Bool.not_false, Bool.and_true, Bool.true_and, Bool.and_false, Bool.false_and,
    Bool.not_true, if_false, if_true, Bool.false_eq_true, ite_false, ite_true]
  set s2 := delete_from_free_list (delete_from_free_list s (b + sb)) (b - sp) with hs2def
  set pa := extract_prev_alloc (s2.mem (b - sp)) with hpadef
  have hmb : (write_block s2 (b - sp) (sb + sp + sn) false pa).mem (b - sp) =
      pack (sb + sp + sn) false pa :=
    write_block_mem_self_free (by omega) hlt (by omega)
  have hfn2 : find_next (write_block s2 (b - sp) (sb + sp + sn) false pa).mem (b - sp) =
      (b - sp) + (sb + sp + sn) := by
    simp [find_next, get_size, hmb, extract_size_pack false pa (by omega) hlt]
  simp only [hfn2]
  set s3 := write_block s2 (b - sp) (sb + sp + sn) false pa with hs3def
  have hne : (write_block s3 ((b - sp) + (sb + sp + sn))
      (extract_size (s3.mem ((b - sp) + (sb + sp + sn))))
      (extract_alloc (s3.mem ((b - sp) + (sb + sp + sn)))) false).mem (b - sp)
      = s3.mem (b - sp) := by
    apply write_block_mem_ne (extract_size_mod16 _) (extract_size_lt _)
    · omega
    · omega
  refine ⟨trivial, ?_, ?_, ?_⟩
  · rw [hne, hmb, extract_size_pack false pa (by omega) hlt]
  · rw [hne, hmb, extract_alloc_pack false pa (by omega)]
  · rw [write_block_seglists, hs3def, write_block_seglists]

/-- C8: on a heap satisfying the boundary-tag invariants around a free
block b, coalesce_block behaves by the four cases keyed by the prev-alloc
bit of b and the alloc bit of the next block: with both neighbours
allocated it returns b and the untouched state; otherwise the merged
block is free, its size is the sum of the merged sizes, its address is
the preceding block exactly when the preceding block was free, and the
segregated lists are those after removing each free neighbour. -/
theorem c8_coalesce_spec (s : St) (b sb sn sp : Nat)
    (Hsb : extract_size (s.mem b) = sb)
    (Hfree : extract_alloc (s.mem b) = false)
    (h32b : 32 ≤ sb) (h16b : sb % 16 = 0)
    (Hsn : extract_size (s.mem (b + sb)) = sn) :
    (extract_prev_alloc (s.mem b) = true → extract_alloc (s.mem (b + sb)) = true →
       coalesce_block s b = (b, s)) ∧
    (extract_prev_alloc (s.mem b) = true → extract_alloc (s.mem (b + sb)) = false →
       32 ≤ sn → sn % 16 = 0 → sb + sn < WORD_MODULUS →
       (coalesce_block s b).1 = b ∧
       extract_size ((coalesce_block s b).2.mem b) = sb + sn ∧
       extract_alloc ((coalesce_block s b).2.mem b) = false ∧
       (coalesce_block s b).2.seglists =
         (delete_from_free_list s (b + sb)).seglists) ∧
    (extract_prev_alloc (s.mem b) = false → extract_alloc (s.mem (b + sb)) = true →
       extract_size (s.mem (b - 8)) = sp → extract_size (s.mem (b - sp)) = sp →
       32 ≤ sp → sp % 16 = 0 → sp ≤ b → sb + sp < WORD_MODULUS →
       (coalesce_block s b).1 = b - sp ∧
       extract_size ((coalesce_block s b).2.mem (b - sp)) = sb + sp ∧
       extract_alloc ((coalesce_block s b).2.mem (b - sp)) = false ∧
       (coalesce_block s b).2.seglists =
         (delete_from_free_list s (b - sp)).seglists) ∧
    (extract_prev_alloc (s.mem b) = false → extract_alloc (s.mem (b + sb)) = false →
       32 ≤ sn → sn % 16 = 0 →
       extract_size (s.mem (b - 8)) = sp → extract_size (s.mem (b - sp)) = sp →
       32 ≤ sp → sp % 16 = 0 → sp ≤ b → sb + sp + sn < WORD_MODULUS →
       (coalesce_block s b).1 = b - sp ∧
       extract_size ((coalesce_block s b).2.mem (b - sp)) = sb + sp + sn ∧
       extract_alloc ((coalesce_block s b).2.mem (b - sp)) = false ∧
       (coalesce_block s b).2.seglists =
         (delete_from_free_list (delete_from_free_list s (b + sb)) (b - sp)).seglists) := by
  refine ⟨?_, ?_, ?_, ?_⟩
  · intro hp hn
    apply coalesce_both_alloc s b hp
    rw [Hsb]
    exact hn
  · intro hp hn h32n h16n hlt
    exact coalesce_next_free s b sb sn Hsb Hsn hp hn h32b h16b h32n h16n hlt
  · intro hp hn Hft Hph h32p h16p hpb hlt
    exact coalesce_prev_free s b sb sp Hsb hp hn Hft Hph h32b h16b h32p h16p hpb hlt
  · intro hp hn h32n h16n Hft Hph h32p h16p hpb hlt
    exact coalesce_both_free s b sb sn sp Hsb Hsn hp hn Hft Hph h32b h16b h32n h16n
      h32p h16p hpb hlt

/-- Witness for C8 on the concrete heap stCo, exercising the case with
both neighbours free: freeing the 32-byte block at 128 merges it with the
free 32-byte block at 96 and the free 128-byte block at 160 into a free
192-byte block at 96, and both neighbours leave their lists. -/
theorem c8_coalesce_spec_witness :
    (coalesce_block stCo 128).1 = 96 ∧
    extract_size ((coalesce_block stCo 128).2.mem 96) = 192 ∧
    extract_alloc ((coalesce_block stCo 128).2.mem 96) = false ∧
    (coalesce_block stCo 128).2.seglists =
      [0, 0, 0, 0, 0, 0, 0, 0, 0, 0, 0, 0, 0, 0, 0] := by
  have hfl1 : find_list_for_block stCo.mem 160 = 2 := by
    have hg : get_size stCo.mem 160 = 128 := by decide
    simp [find_list_for_block, hg, find_list_loop, MAXLISTS]
  have hs1 : delete_from_free_list stCo 160 =
      { stCo with seglists := stCo.seglists.set 2 0 } := by
    have h := delete_sole stCo 160
      (by decide) (by decide) (by decide) (by rw [hfl1]; decide)
    rw [hfl1] at h
    exact h
  have hfl2 : find_list_for_block ({ stCo with
      seglists := stCo.seglists.set 2 0 } : St).mem 96 = 0 := by
    have hg : get_size ({ stCo with seglists := stCo.seglists.set 2 0 } : St).mem 96 = 32 := by
      decide
    simp [find_list_for_block, hg, find_list_loop, MAXLISTS]
  have hs2 : delete_from_free_list ({ stCo with
      seglists := stCo.seglists.set 2 0 } : St) 96 =
      { stCo with seglists := (stCo.seglists.set 2 0).set 0 0 } := by
    have h := delete_sole ({ stCo with seglists := stCo.seglists.set 2 0 } : St)
      96 (by decide) (by decide) (by decide) (by rw [hfl2]; decide)
    rw [hfl2] at h
    exact h
  have h := (c8_coalesce_spec stCo 128 32 128 32 (by decide) (by decide) (by decide)
      (by decide) (by decide)).2.2.2 (by decide) (by decide) (by decide) (by decide)
      (by decide) (by decide) (by decide) (by decide) (by decide) (by decide)
  simp only [show (128 : Nat) + 32 = 160 from rfl, show (128 : Nat) - 32 = 96 from rfl] at h
  rw [hs1, hs2] at h
  refine ⟨h.1, h.2.1.trans (by norm_num), h.2.2.1, h.2.2.2.trans (by decide)⟩

/-! ## Toolbox about slots, firstEmpty, advance and query_loop -/

section SlotLemmas

lemma getD_set_ne (l : List Nat) (i k b : Nat) (h : k ≠ i) :
    (l.set i b).getD k 0 = l.getD k 0 := by
  induction l generalizing i k with
  | nil => simp
  | cons x xs ih =>
    cases i with
    | zero =>
      cases k with
      | zero => omega
      | succ k => simp
    | succ i =>
      cases k with
      | zero => simp
      | succ k => simpa using ih i k (by omega)

lemma getD_set_self (l : List Nat) (i b : Nat) (h : i < l.length) :
    (l.set i b).getD i 0 = b := by
  induction l generalizing i with
  | nil => simp at h
  | cons x xs ih =>
    cases i with
    | zero => simp
    | succ i => simpa using ih i (by simpa using h)

lemma set_getD_zero (l : List Nat) (i : Nat) (h : l.getD i 0 = 0) :
    l.set i 0 = l := by
  induction l generalizing i with
  | nil => simp
  | cons x xs ih =>
    cases i with
    | zero => simp_all
    | succ i => simp_all

lemma firstEmpty_lt {l : List Nat} {i : Nat} (h : firstEmpty l = some i) :
    i < l.length := by
  induction l generalizing i with
  | nil => simp [firstEmpty] at h
  | cons x xs ih =>
    by_cases hx : x = 0
    · simp [firstEmpty, hx] at h
      subst h
      simp
    · simp [firstEmpty, hx] at h
      obtain ⟨j, hj, rfl⟩ := h
      have := ih hj
      simpa using this

lemma firstEmpty_getD {l : List Nat} {i : Nat} (h : firstEmpty l = some i) :
    l.getD i 0 = 0 := by
  induction l generalizing i with
  | nil => simp [firstEmpty] at h
  | cons x xs ih =>
    by_cases hx : x = 0
    · simp [firstEmpty, hx] at h
      subst h
      simpa using hx
    · simp [firstEmpty, hx] at h
      obtain ⟨j, hj, rfl⟩ := h
      simpa using ih hj

lemma firstEmpty_below {l : List Nat} {i : Nat} (h : firstEmpty l = some i) :
    ∀ j, j < i → l.getD j 0 ≠ 0 := by
  induction l generalizing i with
  | nil => simp [firstEmpty] at h
  | cons x xs ih =>
    by_cases hx : x = 0
    · simp [firstEmpty, hx] at h
      omega
    · simp [firstEmpty, hx] at h
      obtain ⟨j0, hj0, rfl⟩ := h
      intro j hj
      cases j with
      | zero => simpa using hx
      | succ j => simpa using ih hj0 j (by omega)

end SlotLemmas

section CountLemmas

lemma nzlen_set_insert (l : List Nat) (i b : Nat)
    (hi : i < l.length) (h0 : l.getD i 0 = 0) (hb : b ≠ 0) :
    ((l.set i b).filter (fun x => x != 0)).length =
      (l.filter (fun x => x != 0)).length + 1 := by
  induction l generalizing i with
  | nil => simp at hi
  | cons x xs ih =>
    cases i with
    | zero =>
      have hx : x = 0 := by simpa using h0
      subst hx
      simp [hb]
    | succ i =>
      have := ih i (by simpa using hi) (by simpa using h0)
      by_cases hx : x = 0
      · simp [hx, this]
      · simp [hx, this]

lemma nzsum_set_insert (m : Mem) (l : List Nat) (i b : Nat)
    (hi : i < l.length) (h0 : l.getD i 0 = 0) (hb : b ≠ 0) :
    (((l.set i b).filter (fun x => x != 0)).map (get_size m)).sum =
      ((l.filter (fun x => x != 0)).map (get_size m)).sum + get_size m b := by
  induction l generalizing i with
  | nil => simp at hi
  | cons x xs ih =>
    cases i with
    | zero =>
      have hx : x = 0 := by simpa using h0
      subst hx
      simp [hb]
      omega
    | succ i =>
      have := ih i (by simpa using hi) (by simpa using h0)
      by_cases hx : x = 0
      · simp [hx, this]
      · simp [hx, this]
        omega

lemma nzlen_set_clear (l : List Nat) (i : Nat)
    (hi : i < l.length) (h0 : l.getD i 0 ≠ 0) :
    ((l.set i 0).filter (fun x => x != 0)).length + 1 =
      (l.filter (fun x => x != 0)).length := by
  induction l generalizing i with
  | nil => simp at hi
  | cons x xs ih =>
    cases i with
    | zero =>
      have hx : x ≠ 0 := by simpa using h0
      simp [hx]
    | succ i =>
      have := ih i (by simpa using hi) (by simpa using h0)
      by_cases hx : x = 0
      · simp [hx, this]
      · simp [hx]
        omega

lemma nzsum_set_clear (m : Mem) (l : List Nat) (i : Nat)
    (hi : i < l.length) (h0 : l.getD i 0 ≠ 0) :
    (((l.set i 0).filter (fun x => x != 0)).map (get_size m)).sum
      + get_size m (l.getD i 0) =
      ((l.filter (fun x => x != 0)).map (get_size m)).sum := by
  induction l generalizing i with
  | nil => simp at hi
  | cons x xs ih =>
    cases i with
    | zero =>
      have hx : x ≠ 0 := by simpa using h0
      simp [hx]
      omega
    | succ i =>
      have := ih i (by simpa using hi) (by simpa using h0)
      by_cases hx : x = 0
      · simpa [hx] using this
      · simp [hx, List.getD] at this ⊢
        omega

lemma all_zero_filter (l : List Nat)
    (h : ∀ k, k < l.length → l.getD k 0 = 0) :
    l.filter (fun x => x != 0) = [] := by
  induction l with
  | nil => simp
  | cons x xs ih =>
    have hx : x = 0 := by simpa using h 0 (by simp)
    subst hx
    have hxs : List.filter (fun x => x != 0) xs = [] :=
      ih (fun k hk => by simpa using h (k + 1) (by simpa using hk))
    simp [hxs]

end CountLemmas

section AdvanceLemmas

lemma advance_ge (l : List Nat) (j : Nat) : j ≤ advance l j := by
  have key : ∀ n j, CACHE_MAX_ENTRIES - j = n → j ≤ advance l j := by
    intro n
    induction n with
    | zero =>
      intro j hj
      rw [advance, if_neg (by simp [CACHE_MAX_ENTRIES] at *; omega)]
    | succ n ih =>
      intro j hj
      rw [advance]
      by_cases hc : j < CACHE_MAX_ENTRIES ∧ l.getD j 0 = 0
      · rw [if_pos hc]
        have hrec := ih (j + 1) (by omega)
        omega
      · rw [if_neg hc]
  exact key (CACHE_MAX_ENTRIES - j) j rfl

lemma advance_le8 (l : List Nat) (j : Nat) (hj : j ≤ CACHE_MAX_ENTRIES) :
    advance l j ≤ CACHE_MAX_ENTRIES := by
  have key : ∀ n j, CACHE_MAX_ENTRIES - j = n → j ≤ CACHE_MAX_ENTRIES →
      advance l j ≤ CACHE_MAX_ENTRIES := by
    intro n
    induction n with
    | zero =>
      intro j hj hj8
      rw [advance, if_neg (by simp [CACHE_MAX_ENTRIES] at *; omega)]
      exact hj8
    | succ n ih =>
      intro j hj hj8
      rw [advance]
      by_cases hc : j < CACHE_MAX_ENTRIES ∧ l.getD j 0 = 0
      · rw [if_pos hc]
        exact ih (j + 1) (by omega) (by omega)
      · rw [if_neg hc]
        exact hj8
  exact key (CACHE_MAX_ENTRIES - j) j rfl hj

lemma advance_below (l : List Nat) (j : Nat) :
    ∀ k, j ≤ k → k < advance l j → l.getD k 0 = 0 := by
  have key : ∀ n j, CACHE_MAX_ENTRIES - j = n →
      ∀ k, j ≤ k → k < advance l j → l.getD k 0 = 0 := by
    intro n
    induction n with
    | zero =>
      intro j hj k hk1 hk2
      rw [advance, if_neg (by simp [CACHE_MAX_ENTRIES] at *; omega)] at hk2
      omega
    | succ n ih =>
      intro j hj k hk1 hk2
      by_cases hc : j < CACHE_MAX_ENTRIES ∧ l.getD j 0 = 0
      · rw [advance, if_pos hc] at hk2
        rcases Nat.eq_or_lt_of_le hk1 with rfl | hlt
        · exact hc.2
        · exact ih (j + 1) (by omega) k (by omega) hk2
      · rw [advance, if_neg hc] at hk2
        omega
  exact key (CACHE_MAX_ENTRIES - j) j rfl

lemma advance_stop (l : List Nat) (j : Nat) (hj : j ≤ CACHE_MAX_ENTRIES) :
    advance l j = CACHE_MAX_ENTRIES ∨
      (advance l j < CACHE_MAX_ENTRIES ∧ l.getD (advance l j) 0 ≠ 0) := by
  have key : ∀ n j, CACHE_MAX_ENTRIES - j = n → j ≤ CACHE_MAX_ENTRIES →
      advance l j = CACHE_MAX_ENTRIES ∨
        (advance l j < CACHE_MAX_ENTRIES ∧ l.getD (advance l j) 0 ≠ 0) := by
    intro n
    induction n with
    | zero =>
      intro j hj hj8
      have hje : j = CACHE_MAX_ENTRIES := by omega
      subst hje
      rw [advance, if_neg (by omega)]
      exact Or.inl rfl
    | succ n ih =>
      intro j hj hj8
      by_cases hc : j < CACHE_MAX_ENTRIES ∧ l.getD j 0 = 0
      · rw [advance, if_pos hc]
        exact ih (j + 1) (by omega) (by omega)
      · rw [advance, if_neg hc]
        rcases Nat.lt_or_ge j CACHE_MAX_ENTRIES with hlt | hge
        · exact Or.inr ⟨hlt, fun h0 => hc ⟨hlt, h0⟩⟩
        · exact Or.inl (by omega)
  exact key (CACHE_MAX_ENTRIES - j) j rfl hj

lemma advance_eq_of (l : List Nat) (j f : Nat) (hjf : j ≤ f)
    (hf8 : f ≤ CACHE_MAX_ENTRIES)
    (hempty : ∀ k, j ≤ k → k < f → l.getD k 0 = 0)
    (hstop : f = CACHE_MAX_ENTRIES ∨ l.getD f 0 ≠ 0) :
    advance l j = f := by
  have key : ∀ n j, f - j = n → j ≤ f →
      (∀ k, j ≤ k → k < f → l.getD k 0 = 0) → advance l j = f := by
    intro n
    induction n with
    | zero =>
      intro j hj hjf2 hempty2
      have hje : j = f := by omega
      subst hje
      rcases hstop with h8 | hocc
      · rw [advance, if_neg (by omega)]
      · rw [advance, if_neg (fun h => hocc h.2)]
    | succ n ih =>
      intro j hj hjf2 hempty2
      rcases Nat.eq_or_lt_of_le hjf2 with rfl | hlt
      · rcases hstop with h8 | hocc
        · rw [advance, if_neg (by omega)]
        · rw [advance, if_neg (fun h => hocc h.2)]
      · have hc : j < CACHE_MAX_ENTRIES ∧ l.getD j 0 = 0 :=
          ⟨by omega, hempty2 j (by omega) hlt⟩
        rw [advance, if_pos hc]
        exact ih (j + 1) (by omega) (by omega)
          (fun k hk1 hk2 => hempty2 k (by omega) hk2)
  exact key (f - j) j rfl hjf hempty

end AdvanceLemmas

section QueryLoopLemmas

lemma query_loop_hits (m : Mem) (l : List Nat) (sz i b : Nat)
    (hi8 : i < CACHE_MAX_ENTRIES) (hslot : l.getD i 0 = b) (hb : b ≠ 0)
    (hsz : sz ≤ get_size m b) :
    ∀ j, j ≤ i →
      (∀ k, j ≤ k → k < i → l.getD k 0 = 0 ∨ get_size m (l.getD k 0) < sz) →
      query_loop m l sz j = some (i, b) := by
  have key : ∀ n j, i - j = n → j ≤ i →
      (∀ k, j ≤ k → k < i → l.getD k 0 = 0 ∨ get_size m (l.getD k 0) < sz) →
      query_loop m l sz j = some (i, b) := by
    intro n
    induction n with
    | zero =>
      intro j hj hji hmid
      have hje : j = i := by omega
      subst hje
      rw [query_loop]
      simp only [if_pos hi8, hslot, if_neg hb, if_pos hsz]
    | succ n ih =>
      intro j hj hji hmid
      have hlt : j < i := by omega
      have hj8 : j < CACHE_MAX_ENTRIES := by omega
      rw [query_loop]
      by_cases h0 : l.getD j 0 = 0
      · simp only [if_pos hj8, h0, if_pos rfl]
        exact ih (j + 1) (by omega) (by omega)
          (fun k hk1 hk2 => hmid k (by omega) hk2)
      · have hsmall : get_size m (l.getD j 0) < sz :=
          (hmid j (le_refl j) hlt).resolve_left h0
        simp only [if_pos hj8, if_neg h0, if_neg (Nat.not_le.mpr hsmall)]
        exact ih (j + 1) (by omega) (by omega)
          (fun k hk1 hk2 => hmid k (by omega) hk2)
  exact fun j hj hmid => key (i - j) j rfl hj hmid

lemma query_loop_spec (m : Mem) (l : List Nat) (sz : Nat) :
    ∀ j i b, query_loop m l sz j = some (i, b) →
      j ≤ i ∧ i < CACHE_MAX_ENTRIES ∧ l.getD i 0 = b ∧ b ≠ 0 ∧
        sz ≤ get_size m b := by
  have key : ∀ n j, CACHE_MAX_ENTRIES - j = n → ∀ i b,
      query_loop m l sz j = some (i, b) →
      j ≤ i ∧ i < CACHE_MAX_ENTRIES ∧ l.getD i 0 = b ∧ b ≠ 0 ∧
        sz ≤ get_size m b := by
    intro n
    induction n with
    | zero =>
      intro j hj i b h
      rw [query_loop, if_neg (by omega)] at h
      cases h
    | succ n ih =>
      intro j hj i b h
      by_cases hj8 : j < CACHE_MAX_ENTRIES
      · rw [query_loop, if_pos hj8] at h
        by_cases h0 : l.getD j 0 = 0
        · simp only [h0, if_pos rfl] at h
          have := ih (j + 1) (by omega) i b h
          exact ⟨by omega, this.2⟩
        · by_cases hle : sz ≤ get_size m (l.getD j 0)
          · simp only [if_neg h0, if_pos hle, Option.some.injEq, Prod.mk.injEq] at h
            obtain ⟨rfl, rfl⟩ := h
            exact ⟨le_refl j, hj8, rfl, h0, hle⟩
          · simp only [if_neg h0, if_neg hle] at h
            have := ih (j + 1) (by omega) i b h
            exact ⟨by omega, this.2⟩
      · rw [query_loop, if_neg hj8] at h
        cases h
  exact fun j i b h => key (CACHE_MAX_ENTRIES - j) j rfl i b h

end QueryLoopLemmas

/-! ## Claim C9: cache insert then query -/

/-- C9 counterexample: in a reachable cache holding a 64-byte block at
slot 0, adding a 32-byte block b succeeds (slot 1), but an immediately
following query for size_of(b) = 32 returns the 64-byte block at slot 0,
not b: the query is first-fit from front, not an inverse of add. -/
theorem c9_counterexample :
    (cache_add memQ cacheQ 200).1 = true ∧
    get_size memQ 200 = 32 ∧
    (cache_query memQ (cache_add memQ cacheQ 200).2 (get_size memQ 200)).1 =
      some 100 ∧
    (100 : Nat) ≠ 200 := by
  have hadd : cache_add memQ cacheQ 200 =
      (true, ⟨[100, 200, 0, 0, 0, 0, 0, 0], 2, 96, 0⟩) := by decide
  have hgs : get_size memQ 200 = 32 := by decide
  have h100 : get_size memQ 100 = 64 := by decide
  refine ⟨by rw [hadd], hgs, ?_, by decide⟩
  rw [hadd, hgs]
  simp [cache_query, query_loop, CACHE_MAX_ENTRIES, h100]

/-- C9 amended: after a cache_add(b) that returns true and places b in
the first empty slot i, an immediately following cache_query(size_of b)
returns b itself and restores the cache to its previous state exactly —
provided every occupied slot below i holds a block smaller than b (as is
the case after an add to an empty cache).  Without that proviso the query
returns the first fitting block at or after front, which need not be b
(see the counterexample). -/
theorem c9_add_query_roundtrip (m : Mem) (c : cache_t) (b i : Nat)
    (hlen : c.elems.length = CACHE_MAX_ENTRIES)
    (hb : b ≠ 0)
    (hfront : c.front = advance c.elems 0)
    (hfe : firstEmpty c.elems = some i)
    (hnf : c.num_entries ≠ CACHE_MAX_ENTRIES)
    (hsz : c.total_size + get_size m b ≤ CACHE_MAX_SIZE)
    (hsmall : ∀ j, j < i → c.elems.getD j 0 ≠ 0 →
       get_size m (c.elems.getD j 0) < get_size m b) :
    (cache_add m c b).1 = true ∧
    cache_query m (cache_add m c b).2 (get_size m b) = (some b, c) := by
  obtain ⟨el, n, t, f⟩ := c
  simp only at hlen hfront hfe hnf hsz hsmall
  have hCM : CACHE_MAX_ENTRIES = 8 := rfl
  have hiL : i < el.length := firstEmpty_lt hfe
  have hi8 : i < CACHE_MAX_ENTRIES := by omega
  have hi0 : el.getD i 0 = 0 := firstEmpty_getD hfe
  have hadd : cache_add m ⟨el, n, t, f⟩ b =
      (true, ⟨el.set i b, n + 1, t + get_size m b, if i < f then i else f⟩) := by
    simp [cache_add, hfe, hnf, show ¬ CACHE_MAX_SIZE < t + get_size m b by omega]
  have hf8 : f ≤ CACHE_MAX_ENTRIES := by
    rw [hfront]
    exact advance_le8 el 0 (by omega)
  have hstop : f = CACHE_MAX_ENTRIES ∨ (f < CACHE_MAX_ENTRIES ∧ el.getD f 0 ≠ 0) := by
    rw [hfront]
    exact advance_stop el 0 (by omega)
  have hbel : ∀ k, k < f → el.getD k 0 = 0 := by
    intro k hk
    exact advance_below el 0 k (Nat.zero_le k) (by omega)
  have hf2le : (if i < f then i else f) ≤ i := by
    split <;> omega
  have hq : query_loop m (el.set i b) (get_size m b) (if i < f then i else f) =
      some (i, b) := by
    apply query_loop_hits m _ _ i b hi8 (getD_set_self el i b hiL) hb (le_refl _)
      _ hf2le
    intro k hk1 hk2
    rw [getD_set_ne el i k b (by omega)]
    by_cases h0 : el.getD k 0 = 0
    · exact Or.inl h0
    · exact Or.inr (hsmall k (by omega) h0)
  have hset : (el.set i b).set i 0 = el := by
    rw [List.set_set]
    exact set_getD_zero el i hi0
  refine ⟨by rw [hadd], ?_⟩
  rw [hadd]
  simp only [cache_query, hq, hset]
  have hfr : (if i = (if i < f then i else f)
      then advance el (if i < f then i else f) else (if i < f then i else f)) = f := by
    by_cases hif : i < f
    · simp only [if_pos hif, if_pos rfl]
      apply advance_eq_of el i f (by omega) hf8 (fun k hk1 hk2 => hbel k hk2)
      rcases hstop with h8 | ⟨hlt, hocc⟩
      · exact Or.inl h8
      · exact Or.inr hocc
    · simp only [if_neg hif]
      have hne : ¬ i = f := by
        rcases hstop with h8 | ⟨hlt, hocc⟩
        · omega
        · intro he
          rw [he] at hi0
          exact hocc hi0
      rw [if_neg hne]
  rw [hfr]
  simp

/-- Witness for C9: adding the 32-byte block to an empty cache and
querying its size returns exactly that block and leaves the cache back in
its initial state. -/
theorem c9_add_query_roundtrip_witness :
    (cache_add memC cache_init 100).1 = true ∧
    cache_query memC (cache_add memC cache_init 100).2 (get_size memC 100) =
      (some 100, cache_init) :=
  c9_add_query_roundtrip memC cache_init 100 0
    (by decide)
    (by decide)
    (by simp [cache_init, advance, CACHE_MAX_ENTRIES])
    (by decide)
    (by decide)
    (by decide)
    (fun j hj _ => absurd hj (Nat.not_lt_zero j))

/-! ## Claim C10: the thread-cache invariant -/

/-- Advancing from 0 equals advancing from f when every slot below f is
empty. -/
lemma advance_zero_of_prefix (l : List Nat) (f : Nat)
    (hf : f ≤ CACHE_MAX_ENTRIES)
    (hempty : ∀ k, k < f → l.getD k 0 = 0) :
    advance l 0 = advance l f := by
  have hg1 := advance_ge l f
  have hg2 := advance_le8 l f hf
  have hbelow := advance_below l f
  have hstop := advance_stop l f hf
  apply advance_eq_of l 0 (advance l f) (by omega) hg2
  · intro k hk1 hk2
    rcases Nat.lt_or_ge k f with h | h
    · exact hempty k h
    · exact hbelow k h hk2
  · rcases hstop with h | h
    · exact Or.inl h
    · exact Or.inr h.2

/-- cache_init establishes the invariant. -/
lemma cache_inv_init (m : Mem) : cache_inv m cache_init := by
  refine ⟨by simp [cache_init], ?_, ?_, ?_⟩
  · simp [cache_init]
  · simp [cache_init]
  · show CACHE_MAX_ENTRIES = advance (List.replicate CACHE_MAX_ENTRIES 0) 0
    symm
    apply advance_eq_of _ 0 CACHE_MAX_ENTRIES (Nat.zero_le _) (le_refl _)
    · intro k hk1 hk2
      simp [List.getD]
    · exact Or.inl rfl

/-- cache_add preserves the invariant. -/
lemma cache_inv_add (m : Mem) (c : cache_t) (b : Nat) (hb : b ≠ 0)
    (hinv : cache_inv m c) : cache_inv m (cache_add m c b).2 := by
  obtain ⟨el, n, t, f⟩ := c
  obtain ⟨hlen, hn, ht, hf⟩ := hinv
  simp only at hlen hn ht hf
  have hCM : CACHE_MAX_ENTRIES = 8 := rfl
  by_cases h1 : n = CACHE_MAX_ENTRIES
  · have he : (cache_add m ⟨el, n, t, f⟩ b).2 = ⟨el, n, t, f⟩ := by
      simp [cache_add, h1]
    rw [he]
    exact ⟨hlen, hn, ht, hf⟩
  · by_cases h2 : CACHE_MAX_SIZE < t + get_size m b
    · have he : (cache_add m ⟨el, n, t, f⟩ b).2 = ⟨el, n, t, f⟩ := by
        simp [cache_add, h1, h2]
      rw [he]
      exact ⟨hlen, hn, ht, hf⟩
    · cases hfe : firstEmpty el with
      | none =>
        have he : (cache_add m ⟨el, n, t, f⟩ b).2 = ⟨el, n, t, f⟩ := by
          simp [cache_add, h1, h2, hfe]
        rw [he]
        exact ⟨hlen, hn, ht, hf⟩
      | some i =>
        simp only [cache_add, if_neg h1, if_neg h2, hfe]
        have hiL : i < el.length := firstEmpty_lt hfe
        have hi0 : el.getD i 0 = 0 := firstEmpty_getD hfe
        have hibelow := firstEmpty_below hfe
        refine ⟨by simpa using hlen, ?_, ?_, ?_⟩
        · show n + 1 = _
          rw [nzlen_set_insert el i b hiL hi0 hb]
          omega
        · show t + get_size m b = _
          rw [nzsum_set_insert m el i b hiL hi0 hb]
          omega
        · show (if i < f then i else f) = advance (el.set i b) 0
          by_cases hif : i < f
          · have hi00 : i = 0 := by
              by_contra hne
              have h0occ := hibelow 0 (by omega)
              have h0emp := advance_below el 0 0 (le_refl 0) (by omega)
              exact h0occ h0emp
            subst hi00
            rw [if_pos hif]
            symm
            apply advance_eq_of (el.set 0 b) 0 0 (le_refl 0) (by omega)
            · intro k hk1 hk2
              omega
            · right
              rw [getD_set_self el 0 b hiL]
              exact hb
          · rw [if_neg hif]
            have hstop := advance_stop el 0 (by omega)
            rw [← hf] at hstop
            rcases hstop with h8 | ⟨hflt, hocc⟩
            · exact absurd h8 (by omega)
            · have hfneq : f ≠ i := by
                intro he
                rw [he] at hocc
                exact hocc hi0
              symm
              apply advance_eq_of (el.set i b) 0 f (Nat.zero_le f) (by omega)
              · intro k hk1 hk2
                rw [getD_set_ne el i k b (by omega)]
                exact advance_below el 0 k (Nat.zero_le k) (by omega)
              · right
                rw [getD_set_ne el i f b (by omega)]
                exact hocc

/-- cache_query preserves the invariant. -/
lemma cache_inv_query (m : Mem) (c : cache_t) (sz : Nat)
    (hinv : cache_inv m c) : cache_inv m (cache_query m c sz).2 := by
  obtain ⟨el, n, t, f⟩ := c
  obtain ⟨hlen, hn, ht, hf⟩ := hinv
  simp only at hlen hn ht hf
  have hCM : CACHE_MAX_ENTRIES = 8 := rfl
  cases hql : query_loop m el sz f with
  | none =>
    simp only [cache_query, hql]
    exact ⟨hlen, hn, ht, hf⟩
  | some ib =>
    obtain ⟨i, b⟩ := ib
    obtain ⟨hfi, hi8, hslot, hb0, hszb⟩ := query_loop_spec m el sz f i b hql
    simp only [cache_query, hql]
    have hiL : i < el.length := by omega
    have hocc : el.getD i 0 ≠ 0 := by
      rw [hslot]
      exact hb0
    have hcount := nzlen_set_clear el i hiL hocc
    have hsum := nzsum_set_clear m el i hiL hocc
    rw [hslot] at hsum
    refine ⟨by simpa using hlen, ?_, ?_, ?_⟩
    · show n - 1 = (List.filter (fun x => x != 0) (el.set i 0)).length
      omega
    · show t - get_size m b =
        (List.map (get_size m) (List.filter (fun x => x != 0) (el.set i 0))).sum
      omega
    show (if i = f then advance (el.set i 0) f else f) = advance (el.set i 0) 0
    by_cases hif : i = f
    · subst hif
      rw [if_pos rfl]
      symm
      apply advance_zero_of_prefix (el.set i 0) i (by omega)
      intro k hk
      rw [getD_set_ne el i k 0 (by omega)]
      exact advance_below el 0 k (Nat.zero_le k) (by omega)
    · rw [if_neg hif]
      have hstop := advance_stop el 0 (by omega)
      rw [← hf] at hstop
      rcases hstop with h8 | ⟨hflt, hocc2⟩
      · exact absurd h8 (by omega)
      · symm
        apply advance_eq_of (el.set i 0) 0 f (Nat.zero_le f) (by omega)
        · intro k hk1 hk2
          rw [getD_set_ne el i k 0 (by omega)]
          exact advance_below el 0 k (Nat.zero_le k) (by omega)
        · right
          rw [getD_set_ne el i f 0 (by omega)]
          exact hocc2

/-- cache_evict succeeds and preserves the invariant when the cache is
non-empty. -/
lemma cache_inv_evict (m : Mem) (c : cache_t)
    (hinv : cache_inv m c) (hpos : 0 < c.num_entries) :
    ∃ e c', cache_evict m c = some (e, c') ∧ cache_inv m c' := by
  obtain ⟨el, n, t, f⟩ := c
  obtain ⟨hlen, hn, ht, hf⟩ := hinv
  simp only at hlen hn ht hf hpos
  have hCM : CACHE_MAX_ENTRIES = 8 := rfl
  have hstop := advance_stop el 0 (by omega)
  rw [← hf] at hstop
  have hflt : f < CACHE_MAX_ENTRIES ∧ el.getD f 0 ≠ 0 := by
    rcases hstop with h8 | h
    · exfalso
      have hall : ∀ k, k < el.length → el.getD k 0 = 0 := by
        intro k hk
        apply advance_below el 0 k (Nat.zero_le k)
        omega
      rw [all_zero_filter el hall] at hn
      simp at hn
      omega
    · exact h
  obtain ⟨hf8, hocc⟩ := hflt
  have hne : n ≠ 0 := by omega
  have hfL : f < el.length := by omega
  rcases hgd : el.getD f 0 with _ | bv
  · exact absurd hgd hocc
  · refine ⟨bv + 1, ⟨el.set f 0, n - 1, t - get_size m (bv + 1),
      advance (el.set f 0) f⟩, ?_, ?_⟩
    · have hgd2 : el[f]?.getD 0 = bv + 1 := by simpa using hgd
      simp [cache_evict, hne, hgd2]
    · have hcount := nzlen_set_clear el f hfL hocc
      have hsum := nzsum_set_clear m el f hfL hocc
      rw [hgd] at hsum
      refine ⟨by simpa using hlen, ?_, ?_, ?_⟩
      · show n - 1 = (List.filter (fun x => x != 0) (el.set f 0)).length
        omega
      · show t - get_size m (bv + 1) =
          (List.map (get_size m) (List.filter (fun x => x != 0) (el.set f 0))).sum
        omega
      show advance (el.set f 0) f = advance (el.set f 0) 0
      symm
      apply advance_zero_of_prefix (el.set f 0) f (by omega)
      intro k hk
      rw [getD_set_ne el f k 0 (by omega)]
      exact advance_below el 0 k (Nat.zero_le k) (by omega)

/-- C10: the thread-cache state invariant — num_entries counts the
occupied slots, total_size sums their block sizes, and front is the
lowest occupied index or the sentinel CACHE_MAX_ENTRIES — holds after
cache_init and is preserved by cache_add of a non-NULL block, by
cache_query, and, under its precondition num_entries > 0, by cache_evict,
whose assertion then passes. -/
theorem c10_cache_inv_preserved (m : Mem) (c : cache_t) (b size : Nat)
    (hb : b ≠ 0) (hinv : cache_inv m c) :
    cache_inv m cache_init ∧
    cache_inv m (cache_add m c b).2 ∧
    cache_inv m (cache_query m c size).2 ∧
    (0 < c.num_entries →
      ∃ e c', cache_evict m c = some (e, c') ∧ cache_inv m c') :=
  ⟨cache_inv_init m, cache_inv_add m c b hb hinv, cache_inv_query m c size hinv,
   fun hpos => cache_inv_evict m c hinv hpos⟩

/-- Witness for C10 on the reachable cache holding one 64-byte block:
the invariant holds there and is preserved by an add of the 32-byte
block, a query for 32 bytes, and an eviction. -/
theorem c10_cache_inv_preserved_witness :
    (200 : Nat) ≠ 0 ∧ cache_inv memQ cacheQ ∧
    (cache_inv memQ cache_init ∧
     cache_inv memQ (cache_add memQ cacheQ 200).2 ∧
     cache_inv memQ (cache_query memQ cacheQ 32).2 ∧
     (∃ e c', cache_evict memQ cacheQ = some (e, c') ∧ cache_inv memQ c')) := by
  have hc : cacheQ = ⟨[100, 0, 0, 0, 0, 0, 0, 0], 1, 64, 0⟩ := by decide
  have hinv : cache_inv memQ cacheQ := by
    rw [hc]
    refine ⟨by decide, by decide, by decide, ?_⟩
    simp [advance, CACHE_MAX_ENTRIES]
  have h := c10_cache_inv_preserved memQ cacheQ 200 32 (by decide) hinv
  exact ⟨by decide, hinv, h.1, h.2.1, h.2.2.1, h.2.2.2 (by decide)⟩
